import Mathlib

/-!
Verification development for the cassette-cover layout engine
(`nfc-cassette-cover-generator.py`).

The Python program composes a fixed-size raster out of optional image
assets.  We shallowly embed the geometric core: images are modelled by
their pixel dimensions, Python float arithmetic on scale factors is
modelled exactly by rationals, `int()` truncation by `pyint`, and Python
`//` by `Int.fdiv`.  Pixel contents never influence any layout decision
in the source, so dimensions together with the paste positions recorded
by `render` capture everything the layout claims speak about.

The model totalises the rational divisions `maxW / iw` at `iw = 0`
(Lean convention `q / 0 = 0`), where the Python source would instead
raise `ZeroDivisionError`; theorems that depend on those quotients carry
positivity hypotheses for the corresponding dimensions.
-/

/-- Locked pixel dimensions, copied from the CONFIG section of the source. -/
def CARD_W : ℕ := 1629

def CARD_H : ℕ := 1600

def BACK_W : ℕ := 403

def SPINE_W : ℕ := 199

def FRONT_W : ℕ := 1027

def FRONT_X : ℕ := BACK_W + SPINE_W

def BANNER_H : ℕ := 165

def POSTER_H : ℕ := 1435

def PADDING : ℕ := 16

def NFC_MARGIN : ℕ := 30

def NFC_FRONT_MAX : ℕ × ℕ := (360, 150)

def NFC_SPINE_MAX : ℕ × ℕ := (270, 150)

def NFC_BACK_MAX : ℕ × ℕ := (300, 100)

def TITLE_LOGO_BACK_MAX : ℕ × ℕ := (375, 180)

def TITLE_LOGO_SPINE_MAX : ℕ × ℕ := (183, 520)

def SCREENSHOT_MAX : ℕ × ℕ := (350, 420)

def ORIGINAL_COVER_BACK_MAX : ℕ × ℕ := (320, 320)

def SYSTEM_LOGO_FRONT_MAX : ℕ × ℕ := (360, 100)

def SYSTEM_LOGO_SPINE_MAX : ℕ × ℕ := (120, 300)

def SYSTEM_LOGO_BACK_MAX : ℕ × ℕ := (300, 100)

def BACK_GAP : ℕ := 30

/-- A raster image, abstracted to its pixel dimensions (`img.size` in PIL). -/
structure Img where
  w : ℕ
  h : ℕ
  deriving DecidableEq, Repr

/-- Python `int()` applied to a rational: truncation toward zero. -/
def pyint (q : ℚ) : ℤ := if 0 ≤ q then ⌊q⌋ else ⌈q⌉

/-- Source `fit_image(img, max_w, max_h)`: shrink (only if the
image exceeds the box in either dimension) by the uniform factor
`min(max_w/iw, max_h/ih)`, truncating each new dimension with `int()`. -/
def fit_image (img : Img) (box : ℕ × ℕ) : Img :=
  if box.1 < img.w ∨ box.2 < img.h then
    let scale : ℚ := min ((box.1 : ℚ) / (img.w : ℚ)) ((box.2 : ℚ) / (img.h : ℚ))
    ⟨(pyint ((img.w : ℚ) * scale)).toNat, (pyint ((img.h : ℚ) * scale)).toNat⟩
  else
    img

/-- Source `img.rotate(-90, expand=True)` on dimensions: a quarter turn with an
expanded canvas exactly swaps width and height. -/
def rotate90 (img : Img) : Img := ⟨img.h, img.w⟩

/-- The crop mode radio buttons: the source stores the strings
"center" / "top" / "bottom" / "manual". -/
inductive CropMode where
  | center
  | top
  | bottom
  | manual
  deriving DecidableEq, Repr

/-- Cover scale factor `max(target_w / iw, target_h / ih)` of `crop_poster`. -/
def crop_scale (img : Img) (tw th : ℕ) : ℚ :=
  max ((tw : ℚ) / (img.w : ℚ)) ((th : ℚ) / (img.h : ℚ))

/-- Source `new_w = int(iw * scale)` in `crop_poster`. -/
def crop_new_w (img : Img) (tw th : ℕ) : ℤ :=
  pyint ((img.w : ℚ) * crop_scale img tw th)

/-- Source `new_h = int(ih * scale)` in `crop_poster`. -/
def crop_new_h (img : Img) (tw th : ℕ) : ℤ :=
  pyint ((img.h : ℚ) * crop_scale img tw th)

/-- Result geometry of `crop_poster`: the crop window origin and the
returned image (PIL `crop` yields exactly the requested box). -/
structure CropGeom where
  left : ℤ
  top : ℤ
  img : Img
  deriving DecidableEq, Repr

/-- The mode dispatch on the overflow axis, duplicated verbatim in the two
orientation branches of `crop_poster`; `slider` is `crop_offset_var`
(range 0..1000) and manual computes `int(overflow * (slider / 1000))`. -/
def crop_origin_pick (mode : CropMode) (slider : ℕ) (overflow : ℤ) : ℤ :=
  match mode with
  | CropMode.center => Int.fdiv overflow 2
  | CropMode.top => 0
  | CropMode.bottom => overflow
  | CropMode.manual => pyint ((overflow : ℚ) * ((slider : ℚ) / 1000))

/-- Source `CassetteApp.crop_poster`: orientation is `iw > ih`; the overflow axis
is horizontal for landscape and vertical for portrait, the other axis is
center-cropped with `//`. -/
def crop_poster (mode : CropMode) (slider : ℕ) (img : Img) (tw th : ℕ) : CropGeom :=
  if img.h < img.w then
    let overflow := crop_new_w img tw th - tw
    ⟨crop_origin_pick mode slider overflow,
     Int.fdiv (crop_new_h img tw th - th) 2, ⟨tw, th⟩⟩
  else
    let overflow := crop_new_h img tw th - th
    ⟨Int.fdiv (crop_new_w img tw th - tw) 2,
     crop_origin_pick mode slider overflow, ⟨tw, th⟩⟩

/-- The overflow of `crop_poster` on the axis selected by orientation. -/
def crop_overflow (img : Img) (tw th : ℕ) : ℤ :=
  if img.h < img.w then crop_new_w img tw th - tw else crop_new_h img tw th - th

/-- The crop origin of `crop_poster` on the axis selected by orientation. -/
def crop_origin (mode : CropMode) (slider : ℕ) (img : Img) (tw th : ℕ) : ℤ :=
  if img.h < img.w then (crop_poster mode slider img tw th).left
  else (crop_poster mode slider img tw th).top

theorem pyint_of_nonneg {q : ℚ} (h : 0 ≤ q) : pyint q = ⌊q⌋ := if_pos h

theorem pyint_nonneg {q : ℚ} (h : 0 ≤ q) : 0 ≤ pyint q := by
  rw [pyint_of_nonneg h]
  exact Int.floor_nonneg.mpr h

theorem le_pyint {z : ℤ} {q : ℚ} (hz : (z : ℚ) ≤ q) (h0 : 0 ≤ q) : z ≤ pyint q := by
  rw [pyint_of_nonneg h0]
  exact Int.le_floor.mpr hz

theorem pyint_le {z : ℤ} {q : ℚ} (h0 : 0 ≤ q) (hq : q ≤ (z : ℚ)) : pyint q ≤ z := by
  rw [pyint_of_nonneg h0]
  calc ⌊q⌋ ≤ ⌊(z : ℚ)⌋ := Int.floor_le_floor hq
  _ = z := Int.floor_intCast z

theorem fit_scale_nonneg (img : Img) (box : ℕ × ℕ) :
    0 ≤ min ((box.1 : ℚ) / (img.w : ℚ)) ((box.2 : ℚ) / (img.h : ℚ)) :=
  le_min (div_nonneg (Nat.cast_nonneg _) (Nat.cast_nonneg _))
    (div_nonneg (Nat.cast_nonneg _) (Nat.cast_nonneg _))

theorem fit_image_w_le (img : Img) (box : ℕ × ℕ) : (fit_image img box).w ≤ box.1 := by
  unfold fit_image
  split
  · rcases Nat.eq_zero_or_pos img.w with h0 | hpos
    · simp [h0, pyint]
    · have hwq : (0 : ℚ) < (img.w : ℚ) := by exact_mod_cast hpos
      have hs0 := fit_scale_nonneg img box
      have hsle : min ((box.1 : ℚ) / (img.w : ℚ)) ((box.2 : ℚ) / (img.h : ℚ))
          ≤ (box.1 : ℚ) / (img.w : ℚ) := min_le_left _ _
      have hle : (img.w : ℚ) * min ((box.1 : ℚ) / (img.w : ℚ)) ((box.2 : ℚ) / (img.h : ℚ))
          ≤ (box.1 : ℚ) := by
        calc (img.w : ℚ) * min ((box.1 : ℚ) / (img.w : ℚ)) ((box.2 : ℚ) / (img.h : ℚ))
            ≤ (img.w : ℚ) * ((box.1 : ℚ) / (img.w : ℚ)) :=
              mul_le_mul_of_nonneg_left hsle (le_of_lt hwq)
        _ = (box.1 : ℚ) := mul_div_cancel₀ _ (ne_of_gt hwq)
      have h0 : 0 ≤ (img.w : ℚ) * min ((box.1 : ℚ) / (img.w : ℚ)) ((box.2 : ℚ) / (img.h : ℚ)) :=
        mul_nonneg (Nat.cast_nonneg _) hs0
      have := pyint_le (z := (box.1 : ℤ)) h0 (by exact_mod_cast hle)
      simpa using Int.toNat_le.mpr this
  · next h =>
    push_neg at h
    exact h.1

theorem fit_image_h_le (img : Img) (box : ℕ × ℕ) : (fit_image img box).h ≤ box.2 := by
  unfold fit_image
  split
  · rcases Nat.eq_zero_or_pos img.h with h0 | hpos
    · simp [h0, pyint]
    · have hwq : (0 : ℚ) < (img.h : ℚ) := by exact_mod_cast hpos
      have hs0 := fit_scale_nonneg img box
      have hsle : min ((box.1 : ℚ) / (img.w : ℚ)) ((box.2 : ℚ) / (img.h : ℚ))
          ≤ (box.2 : ℚ) / (img.h : ℚ) := min_le_right _ _
      have hle : (img.h : ℚ) * min ((box.1 : ℚ) / (img.w : ℚ)) ((box.2 : ℚ) / (img.h : ℚ))
          ≤ (box.2 : ℚ) := by
        calc (img.h : ℚ) * min ((box.1 : ℚ) / (img.w : ℚ)) ((box.2 : ℚ) / (img.h : ℚ))
            ≤ (img.h : ℚ) * ((box.2 : ℚ) / (img.h : ℚ)) :=
              mul_le_mul_of_nonneg_left hsle (le_of_lt hwq)
        _ = (box.2 : ℚ) := mul_div_cancel₀ _ (ne_of_gt hwq)
      have h0 : 0 ≤ (img.h : ℚ) * min ((box.1 : ℚ) / (img.w : ℚ)) ((box.2 : ℚ) / (img.h : ℚ)) :=
        mul_nonneg (Nat.cast_nonneg _) hs0
      have := pyint_le (z := (box.2 : ℤ)) h0 (by exact_mod_cast hle)
      simpa using Int.toNat_le.mpr this
  · next h =>
    push_neg at h
    exact h.2

theorem fit_image_scale_le_one (img : Img) (box : ℕ × ℕ)
    (htrig : box.1 < img.w ∨ box.2 < img.h) :
    min ((box.1 : ℚ) / (img.w : ℚ)) ((box.2 : ℚ) / (img.h : ℚ)) ≤ 1 := by
  rcases htrig with h | h
  · have hw : (0 : ℚ) < (img.w : ℚ) := by
      exact_mod_cast Nat.lt_of_le_of_lt (Nat.zero_le _) h
    exact le_trans (min_le_left _ _)
      (le_of_lt ((div_lt_one hw).mpr (by exact_mod_cast h)))
  · have hh : (0 : ℚ) < (img.h : ℚ) := by
      exact_mod_cast Nat.lt_of_le_of_lt (Nat.zero_le _) h
    exact le_trans (min_le_right _ _)
      (le_of_lt ((div_lt_one hh).mpr (by exact_mod_cast h)))

theorem fit_image_w_le_self (img : Img) (box : ℕ × ℕ) : (fit_image img box).w ≤ img.w := by
  unfold fit_image
  split
  · next htrig =>
    have hs0 := fit_scale_nonneg img box
    have hs1 := fit_image_scale_le_one img box htrig
    have hle : (img.w : ℚ) * min ((box.1 : ℚ) / (img.w : ℚ)) ((box.2 : ℚ) / (img.h : ℚ))
        ≤ (img.w : ℚ) := by
      calc (img.w : ℚ) * min ((box.1 : ℚ) / (img.w : ℚ)) ((box.2 : ℚ) / (img.h : ℚ))
          ≤ (img.w : ℚ) * 1 := mul_le_mul_of_nonneg_left hs1 (Nat.cast_nonneg _)
      _ = (img.w : ℚ) := mul_one _
    have h0 : 0 ≤ (img.w : ℚ) * min ((box.1 : ℚ) / (img.w : ℚ)) ((box.2 : ℚ) / (img.h : ℚ)) :=
      mul_nonneg (Nat.cast_nonneg _) hs0
    have := pyint_le (z := (img.w : ℤ)) h0 (by exact_mod_cast hle)
    simpa using Int.toNat_le.mpr this
  · exact le_refl _

theorem fit_image_h_le_self (img : Img) (box : ℕ × ℕ) : (fit_image img box).h ≤ img.h := by
  unfold fit_image
  split
  · next htrig =>
    have hs0 := fit_scale_nonneg img box
    have hs1 := fit_image_scale_le_one img box htrig
    have hle : (img.h : ℚ) * min ((box.1 : ℚ) / (img.w : ℚ)) ((box.2 : ℚ) / (img.h : ℚ))
        ≤ (img.h : ℚ) := by
      calc (img.h : ℚ) * min ((box.1 : ℚ) / (img.w : ℚ)) ((box.2 : ℚ) / (img.h : ℚ))
          ≤ (img.h : ℚ) * 1 := mul_le_mul_of_nonneg_left hs1 (Nat.cast_nonneg _)
      _ = (img.h : ℚ) := mul_one _
    have h0 : 0 ≤ (img.h : ℚ) * min ((box.1 : ℚ) / (img.w : ℚ)) ((box.2 : ℚ) / (img.h : ℚ)) :=
      mul_nonneg (Nat.cast_nonneg _) hs0
    have := pyint_le (z := (img.h : ℤ)) h0 (by exact_mod_cast hle)
    simpa using Int.toNat_le.mpr this
  · exact le_refl _

theorem fit_image_of_fits (img : Img) (box : ℕ × ℕ)
    (hw : img.w ≤ box.1) (hh : img.h ≤ box.2) : fit_image img box = img := by
  unfold fit_image
  rw [if_neg]
  push_neg
  exact ⟨hw, hh⟩

/-! ## Text layout engine (the summary block of `CassetteApp.render`) -/

def nlChar : Char := '\n'

def spChar : Char := ' '

def spStr : String := " "

def emptyS : String := ""

/-- Splitting a character list at every occurrence of `c`, keeping empty
segments — the semantics of Python `str.split(sep)` for a one-character
separator. -/
def splitCharAux (c : Char) : List Char → List (List Char)
  | [] => [[]]
  | x :: xs =>
    if x = c then [] :: splitCharAux c xs
    else
      match splitCharAux c xs with
      | [] => [[x]]
      | l :: ls => (x :: l) :: ls

/-- Python `s.split(c)` for a single-character separator `c`
(used by the source with `"\n"` and `" "`). -/
def splitChar (c : Char) (s : String) : List String :=
  (splitCharAux c s.data).map (fun l => String.mk l)

/-- Python `raw_line.strip() == ""`: every character is whitespace. -/
def strBlank (s : String) : Bool := s.data.all Char.isWhitespace

/-- The greedy word-packing loop of the wrapping engine: `current` is the
line being assembled; a word is appended while the measured width of the
tentative line stays within `maxW`, otherwise the current line is closed
(if non-empty) and the word starts a new line. -/
def wrap_core (measure : String → ℚ) (maxW : ℚ) : List String → String → List String
  | [], current => if current = emptyS then [] else [current]
  | word :: ws, current =>
    let test := if current = emptyS then word else current ++ spStr ++ word
    if measure test ≤ maxW then wrap_core measure maxW ws test
    else if current = emptyS then wrap_core measure maxW ws word
    else current :: wrap_core measure maxW ws word

/-- One paragraph of the wrapping engine: a whitespace-only paragraph
yields exactly one blank output line, any other paragraph is greedily
word-wrapped. -/
def wrap_line (measure : String → ℚ) (maxW : ℚ) (raw : String) : List String :=
  if strBlank raw then [emptyS] else wrap_core measure maxW (splitChar spChar raw) emptyS

/-- The full wrapping engine: split the summary on explicit line breaks
and concatenate the wrapped lines of every paragraph (the source appends
into one shared `lines` list). -/
def wrap_text (measure : String → ℚ) (maxW : ℚ) (text : String) : List String :=
  ((splitChar nlChar text).map (wrap_line measure maxW)).flatten

/-- The drawing loop over wrapped lines: `y` is `y_offset`; the loop stops
at the first line whose top is at or beyond `maxH`, skips drawing for
blank lines, and advances by `lineH = ascent + descent` for every
processed line.  Returns the drawn lines with their top offsets. -/
def draw_lines (lineH : ℕ) (maxH : ℤ) : List String → ℤ → List (String × ℤ)
  | [], _ => []
  | l :: ls, y =>
    if maxH ≤ y then []
    else if l = emptyS then draw_lines lineH maxH ls (y + lineH)
    else (l, y) :: draw_lines lineH maxH ls (y + lineH)

/-- The number of lines the drawing loop processes (emits vertically,
drawn or blank) before the overflow break. -/
def emit_count (lineH : ℕ) (maxH : ℤ) : List String → ℤ → ℕ
  | [], _ => 0
  | _ :: ls, y => if maxH ≤ y then 0 else emit_count lineH maxH ls (y + lineH) + 1

theorem emit_count_le_length (lineH : ℕ) (maxH : ℤ) :
    ∀ (ls : List String) (y : ℤ), emit_count lineH maxH ls y ≤ ls.length := by
  intro ls
  induction ls with
  | nil => intro y; simp [emit_count]
  | cons l ls ih =>
    intro y
    simp only [emit_count, List.length_cons]
    split
    · exact Nat.zero_le _
    · exact Nat.succ_le_succ (ih _)

theorem emit_count_iff (lineH : ℕ) (maxH : ℤ) :
    ∀ (ls : List String) (y : ℤ) (i : ℕ), i < ls.length →
      (i < emit_count lineH maxH ls y ↔ y + (i : ℤ) * lineH < maxH) := by
  intro ls
  induction ls with
  | nil => intro y i hi; simp at hi
  | cons l ls ih =>
    intro y i hi
    simp only [emit_count]
    split
    · next hbreak =>
      constructor
      · intro h; exact absurd h (by omega)
      · intro h
        have h0 : (0 : ℤ) ≤ (i : ℤ) * lineH :=
          mul_nonneg (Int.natCast_nonneg i) (Int.natCast_nonneg lineH)
        omega
    · next hgo =>
      push_neg at hgo
      cases i with
      | zero =>
        simp only [Nat.cast_zero, zero_mul, add_zero]
        constructor
        · intro _; exact hgo
        · intro _; exact Nat.succ_pos _
      | succ j =>
        have hj : j < ls.length := by simpa using Nat.lt_of_succ_lt_succ hi
        have hIH := ih (y + lineH) j hj
        have hcast : ((j + 1 : ℕ) : ℤ) * lineH = (j : ℤ) * lineH + lineH := by
          push_cast
          ring
        constructor
        · intro h
          have hlt : j < emit_count lineH maxH ls (y + lineH) := Nat.lt_of_succ_lt_succ h
          have := hIH.mp hlt
          rw [hcast]
          linarith
        · intro h
          rw [hcast] at h
          have : j < emit_count lineH maxH ls (y + lineH) := hIH.mpr (by linarith)
          exact Nat.succ_lt_succ this

theorem draw_lines_top (lineH : ℕ) (maxH : ℤ) :
    ∀ (ls : List String) (y : ℤ) (p : String × ℤ),
      p ∈ draw_lines lineH maxH ls y → y ≤ p.2 ∧ p.2 < maxH := by
  intro ls
  induction ls with
  | nil => intro y p hp; simp [draw_lines] at hp
  | cons l ls ih =>
    intro y p hp
    simp only [draw_lines] at hp
    split at hp
    · simp at hp
    · next hgo =>
      push_neg at hgo
      split at hp
      · have := ih (y + lineH) p hp
        constructor
        · have h0 : (0 : ℤ) ≤ (lineH : ℤ) := Int.natCast_nonneg _
          omega
        · exact this.2
      · rcases List.mem_cons.mp hp with h | h
        · subst h; exact ⟨le_refl _, hgo⟩
        · have := ih (y + lineH) p h
          constructor
          · have h0 : (0 : ℤ) ≤ (lineH : ℤ) := Int.natCast_nonneg _
            omega
          · exact this.2

theorem wrap_core_no_blank (measure : String → ℚ) (maxW : ℚ) :
    ∀ (ws : List String) (current s : String),
      s ∈ wrap_core measure maxW ws current → s ≠ emptyS := by
  intro ws
  induction ws with
  | nil =>
    intro current s hs
    simp only [wrap_core] at hs
    split at hs
    · simp at hs
    · next h =>
      rw [List.mem_singleton] at hs
      subst hs
      exact h
  | cons w ws ih =>
    intro current s hs
    simp only [wrap_core] at hs
    by_cases hcur : current = emptyS
    · simp only [if_pos hcur] at hs
      split at hs
      · exact ih _ _ hs
      · exact ih _ _ hs
    · simp only [if_neg hcur] at hs
      split at hs
      · exact ih _ _ hs
      · rcases List.mem_cons.mp hs with h | h
        · subst h
          exact hcur
        · exact ih _ _ h

/-! ## Application state -/

/-- The `self.assets` dictionary: every slot is an optional decoded image,
plus the plain-text summary. -/
structure Assets where
  poster : Option Img
  title_logo_default : Option Img
  title_logo_spine : Option Img
  title_logo_back : Option Img
  system_logo_default : Option Img
  system_logo_front : Option Img
  system_logo_spine : Option Img
  system_logo_back : Option Img
  original_cover_back : Option Img
  screenshot : Option Img
  summary : String
  deriving DecidableEq

/-- Python `override or default` on two asset slots (a present override
wins, else the default is used; PIL images are always truthy). -/
def orDefault (o d : Option Img) : Option Img :=
  match o with
  | some x => some x
  | none => d

/-- The two fixed decorative-mark variants selected per panel. -/
inductive NfcColor where
  | white
  | black
  deriving DecidableEq, Repr

/-- The font obtained at render time (truetype or fallback): a width
metric for strings and the `getmetrics()` ascent/descent pair. -/
structure Font where
  measure : String → ℚ
  ascent : ℕ
  descent : ℕ

/-- The in-memory snapshot `render` reads: assets, the two decorative-mark
bitmaps, the per-panel mark choice, crop settings and the loaded font. -/
structure St where
  assets : Assets
  nfcWhite : Img
  nfcBlack : Img
  nfc_front : NfcColor
  nfc_spine : NfcColor
  nfc_back : NfcColor
  crop_mode : CropMode
  crop_offset : ℕ
  font : Font

/-- Source `self.nfc_logos[self.nfc_logo_colors[panel]]`. -/
def St.nfcBmp (st : St) : NfcColor → Img
  | NfcColor.white => st.nfcWhite
  | NfcColor.black => st.nfcBlack

/-! ## Asset-loading operations (success paths; a cancelled dialog or a
failed decode leaves the state untouched in the source). -/

/-- Targets of `load_system_logo`. -/
inductive SysTarget where
  | allSides
  | front
  | spine
  | back
  deriving DecidableEq, Repr

/-- Targets of `load_title_logo`. -/
inductive TitleTarget where
  | allSides
  | spine
  | back
  deriving DecidableEq, Repr

/-- Source `CassetteApp.load_system_logo`: an override load is refused while no
default is set; loading a new default clears all three overrides before
storing the image. -/
def load_system_logo (a : Assets) (target : SysTarget) (img : Img) : Assets :=
  if target ≠ SysTarget.allSides ∧ a.system_logo_default = none then a
  else
    match target with
    | SysTarget.allSides =>
        { a with system_logo_default := some img, system_logo_front := none,
                 system_logo_spine := none, system_logo_back := none }
    | SysTarget.front => { a with system_logo_front := some img }
    | SysTarget.spine => { a with system_logo_spine := some img }
    | SysTarget.back => { a with system_logo_back := some img }

/-- Source `CassetteApp.load_title_logo`: same discipline for the title-logo
family (two override slots). -/
def load_title_logo (a : Assets) (target : TitleTarget) (img : Img) : Assets :=
  if target ≠ TitleTarget.allSides ∧ a.title_logo_default = none then a
  else
    match target with
    | TitleTarget.allSides =>
        { a with title_logo_default := some img, title_logo_spine := none,
                 title_logo_back := none }
    | TitleTarget.spine => { a with title_logo_spine := some img }
    | TitleTarget.back => { a with title_logo_back := some img }

/-- The keys served by `load_asset_file` / `load_asset_url` buttons. -/
inductive SimpleKey where
  | poster
  | screenshot
  | originalCover
  deriving DecidableEq, Repr

/-- Source `load_asset_file` / `load_asset_url`: store the decoded image in the
chosen simple slot. -/
def load_simple_asset (a : Assets) (k : SimpleKey) (img : Img) : Assets :=
  match k with
  | SimpleKey.poster => { a with poster := some img }
  | SimpleKey.screenshot => { a with screenshot := some img }
  | SimpleKey.originalCover => { a with original_cover_back := some img }

/-- Editing the summary text field. -/
def set_summary (a : Assets) (s : String) : Assets := { a with summary := s }

/-- The override-validity invariant of the asset bundle: an override slot
is non-empty only if its family's default slot is non-empty. -/
def overridesValid (a : Assets) : Prop :=
  (a.system_logo_front.isSome → a.system_logo_default.isSome) ∧
  (a.system_logo_spine.isSome → a.system_logo_default.isSome) ∧
  (a.system_logo_back.isSome → a.system_logo_default.isSome) ∧
  (a.title_logo_spine.isSome → a.title_logo_default.isSome) ∧
  (a.title_logo_back.isSome → a.title_logo_default.isSome)

/-! ## The render pass as a paste log

`render` allocates an `RGB` canvas of `CARD_W × CARD_H`, draws the three
flat-colour rectangles (which change pixels, never geometry) and then
pastes the composed elements front panel first, spine second, back last.
The model records every paste with its element tag, pasted image and
position; a pasted text box records the transparent `RGBA` buffer the
line-drawing loop writes into (`Image.new` of the computed size). -/

inductive Elem where
  | posterE
  | sysFrontE
  | nfcFrontE
  | sysSpineE
  | titleSpineE
  | nfcSpineE
  | titleBackE
  | screenshotE
  | textBoxE
  | origCoverE
  | sysBackE
  | nfcBackE
  deriving DecidableEq, Repr

/-- One `img.paste(...)` call: which element, the pasted image, and the
top-left position. -/
structure PasteRec where
  elem : Elem
  img : Img
  x : ℤ
  y : ℤ
  deriving DecidableEq, Repr

/-- The output raster: fixed geometry plus the ordered paste log. -/
structure Canvas where
  width : ℕ
  height : ℕ
  alphaChannel : Bool
  pastes : List PasteRec
  deriving DecidableEq, Repr

/-- Front-panel pastes of `render`: the fill-cropped poster (if any), the
front-or-default system logo (if any), the front decorative mark. -/
def front_pastes (st : St) : List PasteRec :=
  (match st.assets.poster with
   | some p =>
       [⟨Elem.posterE, (crop_poster st.crop_mode st.crop_offset p FRONT_W POSTER_H).img,
         (FRONT_X : ℤ), (BANNER_H : ℤ)⟩]
   | none => []) ++
  (match orDefault st.assets.system_logo_front st.assets.system_logo_default with
   | some l =>
       let li := fit_image l SYSTEM_LOGO_FRONT_MAX
       [⟨Elem.sysFrontE, li, (FRONT_X : ℤ) + (PADDING : ℤ),
         Int.fdiv ((BANNER_H : ℤ) - li.h) 2⟩]
   | none => []) ++
  (let nf := fit_image (st.nfcBmp st.nfc_front) NFC_FRONT_MAX
   [⟨Elem.nfcFrontE, nf, (CARD_W : ℤ) - nf.w - (NFC_MARGIN : ℤ), (NFC_MARGIN : ℤ)⟩])

/-- Spine-panel pastes of `render`: system logo and title logo are rotated
then shrink-fitted; the decorative mark is shrink-fitted then rotated
(the source applies `.rotate(-90, expand=True)` after `fit_image`). -/
def spine_pastes (st : St) : List PasteRec :=
  (match orDefault st.assets.system_logo_spine st.assets.system_logo_default with
   | some l =>
       let r := fit_image (rotate90 l) SYSTEM_LOGO_SPINE_MAX
       [⟨Elem.sysSpineE, r, (BACK_W : ℤ) + Int.fdiv ((SPINE_W : ℤ) - r.w) 2,
         (NFC_MARGIN : ℤ)⟩]
   | none => []) ++
  (match orDefault st.assets.title_logo_spine st.assets.title_logo_default with
   | some l =>
       let r := fit_image (rotate90 l) TITLE_LOGO_SPINE_MAX
       [⟨Elem.titleSpineE, r, (BACK_W : ℤ) + Int.fdiv ((SPINE_W : ℤ) - r.w) 2,
         Int.fdiv ((CARD_H : ℤ) - r.h) 2⟩]
   | none => []) ++
  (let r := rotate90 (fit_image (st.nfcBmp st.nfc_spine) NFC_SPINE_MAX)
   [⟨Elem.nfcSpineE, r, (BACK_W : ℤ) + Int.fdiv ((SPINE_W : ℤ) - r.w) 2,
     (CARD_H : ℤ) - r.h - (NFC_MARGIN : ℤ)⟩])

/-- Source `nfc_back = fit_image(self.nfc_logos[...back], *NFC_BACK_MAX)`,
pre-calculated before the summary in the source. -/
def nfcBackFit (st : St) : Img := fit_image (st.nfcBmp st.nfc_back) NFC_BACK_MAX

/-- Source `sys_back = fit_image(back_logo_asset, *SYSTEM_LOGO_BACK_MAX)` where
`back_logo_asset` is the back override or the default system logo. -/
def sysBackFit (st : St) : Option Img :=
  (orDefault st.assets.system_logo_back st.assets.system_logo_default).map
    (fun l => fit_image l SYSTEM_LOGO_BACK_MAX)

/-- Source `back_logo = fit_image(title_back, *TITLE_LOGO_BACK_MAX)` where
`title_back` is the back override or the default title logo. -/
def titleBackFit (st : St) : Option Img :=
  (orDefault st.assets.title_logo_back st.assets.title_logo_default).map
    (fun t => fit_image t TITLE_LOGO_BACK_MAX)

/-- Source `shot = fit_image(screenshot, *SCREENSHOT_MAX)` when a screenshot is
present. -/
def shotFit (st : St) : Option Img :=
  st.assets.screenshot.map (fun s => fit_image s SCREENSHOT_MAX)

/-- Source `original_img = fit_image(original_cover, *ORIGINAL_COVER_BACK_MAX)`
when a secondary/original cover is present. -/
def origBackFit (st : St) : Option Img :=
  st.assets.original_cover_back.map (fun oc => fit_image oc ORIGINAL_COVER_BACK_MAX)

/-- Back-panel pastes of `render`, with the running cursor `y` threaded
exactly as in the source: title logo, screenshot, summary text box
top-down; then original cover, system logo and decorative mark
bottom-anchored.  The text-box height is the dynamically computed budget
`CARD_H - bottom_reserved - y` (as a ℤ; `Image.new` would fail on a
negative value, and the budget is proved non-negative below). -/
def back_pastes (st : St) : List PasteRec :=
  let nfcb := nfcBackFit st
  let sys_back := sysBackFit st
  let p1 : List PasteRec × ℤ :=
    match titleBackFit st with
    | some bl =>
        ([⟨Elem.titleBackE, bl, Int.fdiv ((BACK_W : ℤ) - bl.w) 2, (PADDING : ℤ)⟩],
         (PADDING : ℤ) + bl.h + (BACK_GAP : ℤ))
    | none => ([], (PADDING : ℤ))
  let shotF := shotFit st
  let p2 : List PasteRec × ℤ :=
    match shotF with
    | some s =>
        (p1.1 ++ [⟨Elem.screenshotE, s, Int.fdiv ((BACK_W : ℤ) - s.w) 2, p1.2⟩],
         p1.2 + s.h + (BACK_GAP : ℤ))
    | none => p1
  let p3 : List PasteRec × ℤ :=
    if st.assets.summary = emptyS then p2
    else
      let bottom_reserved : ℤ := (NFC_MARGIN : ℤ) + nfcb.h + (BACK_GAP : ℤ) +
        (match sys_back with
         | some s => (s.h : ℤ) + (BACK_GAP : ℤ)
         | none => 0)
      let maxTextH : ℤ := (CARD_H : ℤ) - bottom_reserved - p2.2
      let textW : ℕ :=
        match shotF with
        | some s => s.w
        | none => BACK_W - 2 * PADDING
      let tbox : Img := ⟨textW, maxTextH.toNat⟩
      let xp : ℤ :=
        match shotF with
        | some s => Int.fdiv ((BACK_W : ℤ) - s.w) 2
        | none => Int.fdiv ((BACK_W : ℤ) - tbox.w) 2
      (p2.1 ++ [⟨Elem.textBoxE, tbox, xp, p2.2⟩], p2.2 + tbox.h + (BACK_GAP : ℤ))
  let nfc_y : ℤ := (CARD_H : ℤ) - nfcb.h - (NFC_MARGIN : ℤ)
  let p4 : List PasteRec :=
    match origBackFit st with
    | some oi =>
        let orig_y : ℤ :=
          match sys_back with
          | some s => (nfc_y - s.h - (BACK_GAP : ℤ)) - oi.h - (BACK_GAP : ℤ)
          | none => nfc_y - oi.h - (BACK_GAP : ℤ)
        p3.1 ++ [⟨Elem.origCoverE, oi, Int.fdiv ((BACK_W : ℤ) - oi.w) 2, orig_y⟩]
    | none => p3.1
  let p5 : List PasteRec :=
    match sys_back with
    | some s =>
        p4 ++ [⟨Elem.sysBackE, s, Int.fdiv ((BACK_W : ℤ) - s.w) 2,
               nfc_y - s.h - (BACK_GAP : ℤ)⟩]
    | none => p4
  p5 ++ [⟨Elem.nfcBackE, nfcb, Int.fdiv ((BACK_W : ℤ) - nfcb.w) 2, nfc_y⟩]

/-- Source `CassetteApp.render`: a fresh opaque `RGB` canvas of the locked card
size, filled rectangles (geometry-preserving), then all pastes in source
order. -/
def render (st : St) : Canvas :=
  ⟨CARD_W, CARD_H, false, front_pastes st ++ spine_pastes st ++ back_pastes st⟩

/-! ## Layout accessors (closed forms read off the spec's layout rules,
to be compared with the cursor-threaded computation of `back_pastes`) -/

/-- The decorative mark's top edge on the back panel:
`CARD_H - markHeight - margin`. -/
def nfcYpos (st : St) : ℤ := (CARD_H : ℤ) - (nfcBackFit st).h - (NFC_MARGIN : ℤ)

/-- The back system logo's top edge: directly above the mark, separated
by the fixed gap. -/
def sysYpos (st : St) (s : Img) : ℤ := nfcYpos st - s.h - (BACK_GAP : ℤ)

/-- The running top cursor after the title logo and screenshot steps:
top padding plus (height + gap) for each element present. -/
def specTopCursor (st : St) : ℤ :=
  (PADDING : ℤ) +
  (match titleBackFit st with
   | some t => (t.h : ℤ) + (BACK_GAP : ℤ)
   | none => 0) +
  (match shotFit st with
   | some s => (s.h : ℤ) + (BACK_GAP : ℤ)
   | none => 0)

/-- The space reserved for bottom-anchored elements before the text is
laid out: margin + mark height + gap, plus system-logo height + gap when
a back-or-default system logo is present — and nothing else. -/
def specBottomReserved (st : St) : ℤ :=
  (NFC_MARGIN : ℤ) + (nfcBackFit st).h + (BACK_GAP : ℤ) +
  (match sysBackFit st with
   | some s => (s.h : ℤ) + (BACK_GAP : ℤ)
   | none => 0)

/-- The text box width: the screenshot's fitted width when present, else
the back width minus twice the padding. -/
def specTextW (st : St) : ℕ :=
  match shotFit st with
  | some s => s.w
  | none => BACK_W - 2 * PADDING

/-- The vertical budget handed to the text layout engine. -/
def specTextBudget (st : St) : ℤ :=
  (CARD_H : ℤ) - specBottomReserved st - specTopCursor st

/-! ## Characterisation of the paste log -/

theorem mem_front_tags (st : St) (r : PasteRec) (hr : r ∈ front_pastes st) :
    r.elem = Elem.posterE ∨ r.elem = Elem.sysFrontE ∨ r.elem = Elem.nfcFrontE := by
  unfold front_pastes at hr
  rcases h1 : st.assets.poster with _ | p <;>
    rcases h2 : orDefault st.assets.system_logo_front st.assets.system_logo_default with _ | l <;>
    simp [h1, h2] at hr <;>
    rcases hr with h | h | h <;>
    simp_all

theorem mem_spine_tags (st : St) (r : PasteRec) (hr : r ∈ spine_pastes st) :
    r.elem = Elem.sysSpineE ∨ r.elem = Elem.titleSpineE ∨ r.elem = Elem.nfcSpineE := by
  unfold spine_pastes at hr
  rcases h1 : orDefault st.assets.system_logo_spine st.assets.system_logo_default with _ | a <;>
    rcases h2 : orDefault st.assets.title_logo_spine st.assets.title_logo_default with _ | b <;>
    simp [h1, h2] at hr <;>
    rcases hr with h | h | h <;>
    simp_all

theorem mem_back_tags (st : St) (r : PasteRec) (hr : r ∈ back_pastes st) :
    r.elem = Elem.titleBackE ∨ r.elem = Elem.screenshotE ∨ r.elem = Elem.textBoxE ∨
    r.elem = Elem.origCoverE ∨ r.elem = Elem.sysBackE ∨ r.elem = Elem.nfcBackE := by
  unfold back_pastes at hr
  rcases h1 : titleBackFit st with _ | t <;>
    rcases h2 : shotFit st with _ | s <;>
    by_cases h3 : st.assets.summary = emptyS <;>
    rcases h4 : origBackFit st with _ | oc <;>
    rcases h5 : sysBackFit st with _ | l <;>
    simp [h1, h2, h3, h4, h5] at hr <;>
    aesop

theorem render_mem_cases (st : St) (r : PasteRec) (hr : r ∈ (render st).pastes) :
    r ∈ front_pastes st ∨ r ∈ spine_pastes st ∨ r ∈ back_pastes st := by
  simp only [render, List.mem_append] at hr
  tauto

theorem spine_nfc_char (st : St) :
    ∀ r ∈ spine_pastes st, r.elem = Elem.nfcSpineE →
      r.img = rotate90 (fit_image (st.nfcBmp st.nfc_spine) NFC_SPINE_MAX) := by
  unfold spine_pastes
  rcases h1 : orDefault st.assets.system_logo_spine st.assets.system_logo_default with _ | a <;>
    rcases h2 : orDefault st.assets.title_logo_spine st.assets.title_logo_default with _ | b <;>
    simp [h1, h2, List.forall_mem_append]

theorem spine_sys_char (st : St) (l : Img)
    (hl : orDefault st.assets.system_logo_spine st.assets.system_logo_default = some l) :
    ∀ r ∈ spine_pastes st, r.elem = Elem.sysSpineE →
      r.img = fit_image (rotate90 l) SYSTEM_LOGO_SPINE_MAX := by
  unfold spine_pastes
  rcases h2 : orDefault st.assets.title_logo_spine st.assets.title_logo_default with _ | b <;>
    simp [hl, h2, List.forall_mem_append]

theorem spine_title_char (st : St) (l : Img)
    (hl : orDefault st.assets.title_logo_spine st.assets.title_logo_default = some l) :
    ∀ r ∈ spine_pastes st, r.elem = Elem.titleSpineE →
      r.img = fit_image (rotate90 l) TITLE_LOGO_SPINE_MAX := by
  unfold spine_pastes
  rcases h1 : orDefault st.assets.system_logo_spine st.assets.system_logo_default with _ | a <;>
    simp [hl, h1, List.forall_mem_append]

theorem spine_nfc_mem (st : St) : ∃ r ∈ spine_pastes st, r.elem = Elem.nfcSpineE := by
  unfold spine_pastes
  exact ⟨_, List.mem_append_right _ (List.mem_singleton_self _), rfl⟩

theorem back_nfc_char (st : St) :
    ∀ r ∈ back_pastes st, r.elem = Elem.nfcBackE →
      r.img = nfcBackFit st ∧ r.y = nfcYpos st := by
  unfold back_pastes
  rcases h1 : titleBackFit st with _ | t <;>
    rcases h2 : shotFit st with _ | s <;>
    by_cases h3 : st.assets.summary = emptyS <;>
    rcases h4 : origBackFit st with _ | oc <;>
    rcases h5 : sysBackFit st with _ | l <;>
    simp [h1, h2, h3, h4, h5, List.forall_mem_append, nfcYpos]

theorem back_sys_char (st : St) (l : Img) (hl : sysBackFit st = some l) :
    ∀ r ∈ back_pastes st, r.elem = Elem.sysBackE →
      r.img = l ∧ r.y = sysYpos st l := by
  unfold back_pastes
  rcases h1 : titleBackFit st with _ | t <;>
    rcases h2 : shotFit st with _ | s <;>
    by_cases h3 : st.assets.summary = emptyS <;>
    rcases h4 : origBackFit st with _ | oc <;>
    simp [h1, h2, h3, h4, hl, List.forall_mem_append, sysYpos, nfcYpos]

/-- The top edge of the current bottom stack above which a secondary
cover is placed: the system logo when present, else the mark. -/
def stackAnchor (st : St) : ℤ :=
  match sysBackFit st with
  | some s => sysYpos st s
  | none => nfcYpos st

theorem stackAnchor_some (st : St) (l : Img) (h : sysBackFit st = some l) :
    stackAnchor st = sysYpos st l := by
  unfold stackAnchor
  rw [h]

theorem stackAnchor_none (st : St) (h : sysBackFit st = none) :
    stackAnchor st = nfcYpos st := by
  unfold stackAnchor
  rw [h]

theorem back_orig_char (st : St) (oi : Img) (hoi : origBackFit st = some oi) :
    ∀ r ∈ back_pastes st, r.elem = Elem.origCoverE →
      r.img = oi ∧ r.y = stackAnchor st - oi.h - (BACK_GAP : ℤ) := by
  unfold back_pastes
  rcases h1 : titleBackFit st with _ | t <;>
    rcases h2 : shotFit st with _ | s <;>
    by_cases h3 : st.assets.summary = emptyS <;>
    rcases h5 : sysBackFit st with _ | l <;>
    simp [h1, h2, h3, hoi, h5, List.forall_mem_append, stackAnchor, sysYpos, nfcYpos]

theorem back_text_char (st : St) :
    ∀ r ∈ back_pastes st, r.elem = Elem.textBoxE →
      st.assets.summary ≠ emptyS ∧ r.img.w = specTextW st ∧
      r.img.h = (specTextBudget st).toNat ∧ r.y = specTopCursor st := by
  unfold back_pastes
  rcases h1 : titleBackFit st with _ | t <;>
    rcases h2 : shotFit st with _ | s <;>
    by_cases h3 : st.assets.summary = emptyS <;>
    rcases h4 : origBackFit st with _ | oc <;>
    rcases h5 : sysBackFit st with _ | l <;>
    simp [h1, h2, h3, h4, h5, List.forall_mem_append, specTextW, specTextBudget,
      specTopCursor, specBottomReserved]
  all_goals simp only [add_assoc, and_self]

theorem back_nfc_mem (st : St) : ∃ r ∈ back_pastes st, r.elem = Elem.nfcBackE := by
  unfold back_pastes
  exact ⟨_, List.mem_append_right _ (List.mem_singleton_self _), rfl⟩

theorem back_sys_mem (st : St) (l : Img) (hl : sysBackFit st = some l) :
    ∃ r ∈ back_pastes st, r.elem = Elem.sysBackE := by
  unfold back_pastes
  rcases h1 : titleBackFit st with _ | t <;>
    rcases h2 : shotFit st with _ | s <;>
    by_cases h3 : st.assets.summary = emptyS <;>
    rcases h4 : origBackFit st with _ | oc <;>
    simp [h1, h2, h3, h4, hl]

theorem back_orig_mem (st : St) (oi : Img) (hoi : origBackFit st = some oi) :
    ∃ r ∈ back_pastes st, r.elem = Elem.origCoverE := by
  unfold back_pastes
  rcases h1 : titleBackFit st with _ | t <;>
    rcases h2 : shotFit st with _ | s <;>
    by_cases h3 : st.assets.summary = emptyS <;>
    rcases h5 : sysBackFit st with _ | l <;>
    simp [h1, h2, h3, h5, hoi]

theorem back_text_mem (st : St) (hsum : st.assets.summary ≠ emptyS) :
    ∃ r ∈ back_pastes st, r.elem = Elem.textBoxE := by
  unfold back_pastes
  rcases h1 : titleBackFit st with _ | t <;>
    rcases h2 : shotFit st with _ | s <;>
    rcases h4 : origBackFit st with _ | oc <;>
    rcases h5 : sysBackFit st with _ | l <;>
    simp [h1, h2, h4, h5, hsum]

/-! ## Claim theorems -/

/-- C8: `fit_image` returns any image already within the box unchanged;
an image exceeding the box in either dimension is scaled by the uniform
factor `min(maxW/iw, maxH/ih)` (each dimension truncated by `int()`),
the result fits the box, and `fit_image` never produces dimensions
larger than the input's.  The positivity hypotheses restrict the
statement to images where the Python source is defined (a 0-wide or
0-tall image would raise `ZeroDivisionError` in the scale computation,
while the rational model totalises division by zero). -/
theorem C8_fit_shrink (img : Img) (box : ℕ × ℕ) (hw : 0 < img.w) (hh : 0 < img.h) :
    (img.w ≤ box.1 ∧ img.h ≤ box.2 → fit_image img box = img) ∧
    (box.1 < img.w ∨ box.2 < img.h →
      fit_image img box =
        ⟨(pyint ((img.w : ℚ) *
            min ((box.1 : ℚ) / (img.w : ℚ)) ((box.2 : ℚ) / (img.h : ℚ)))).toNat,
         (pyint ((img.h : ℚ) *
            min ((box.1 : ℚ) / (img.w : ℚ)) ((box.2 : ℚ) / (img.h : ℚ)))).toNat⟩) ∧
    (fit_image img box).w ≤ box.1 ∧ (fit_image img box).h ≤ box.2 ∧
    (fit_image img box).w ≤ img.w ∧ (fit_image img box).h ≤ img.h := by
  refine ⟨fun h => fit_image_of_fits img box h.1 h.2, fun htrig => ?_,
    fit_image_w_le img box, fit_image_h_le img box,
    fit_image_w_le_self img box, fit_image_h_le_self img box⟩
  unfold fit_image
  rw [if_pos htrig]

/-- C8 witness: a concrete 300×100 image and the 270×150 spine-mark box. -/
theorem C8_fit_shrink_witness :
    0 < (Img.mk 300 100).w ∧ 0 < (Img.mk 300 100).h ∧
    (((Img.mk 300 100).w ≤ NFC_SPINE_MAX.1 ∧ (Img.mk 300 100).h ≤ NFC_SPINE_MAX.2 →
        fit_image (Img.mk 300 100) NFC_SPINE_MAX = Img.mk 300 100) ∧
      (NFC_SPINE_MAX.1 < (Img.mk 300 100).w ∨ NFC_SPINE_MAX.2 < (Img.mk 300 100).h →
        fit_image (Img.mk 300 100) NFC_SPINE_MAX =
          ⟨(pyint (((Img.mk 300 100).w : ℚ) *
              min ((NFC_SPINE_MAX.1 : ℚ) / ((Img.mk 300 100).w : ℚ))
                ((NFC_SPINE_MAX.2 : ℚ) / ((Img.mk 300 100).h : ℚ)))).toNat,
           (pyint (((Img.mk 300 100).h : ℚ) *
              min ((NFC_SPINE_MAX.1 : ℚ) / ((Img.mk 300 100).w : ℚ))
                ((NFC_SPINE_MAX.2 : ℚ) / ((Img.mk 300 100).h : ℚ)))).toNat⟩) ∧
      (fit_image (Img.mk 300 100) NFC_SPINE_MAX).w ≤ NFC_SPINE_MAX.1 ∧
      (fit_image (Img.mk 300 100) NFC_SPINE_MAX).h ≤ NFC_SPINE_MAX.2 ∧
      (fit_image (Img.mk 300 100) NFC_SPINE_MAX).w ≤ (Img.mk 300 100).w ∧
      (fit_image (Img.mk 300 100) NFC_SPINE_MAX).h ≤ (Img.mk 300 100).h) :=
  ⟨by norm_num, by norm_num,
   C8_fit_shrink (Img.mk 300 100) NFC_SPINE_MAX (by norm_num) (by norm_num)⟩

theorem crop_scale_nonneg (img : Img) (tw th : ℕ) : 0 ≤ crop_scale img tw th :=
  le_trans (div_nonneg (Nat.cast_nonneg _) (Nat.cast_nonneg _)) (le_max_left _ _)

theorem crop_new_w_ge (img : Img) (tw th : ℕ) (hw : 0 < img.w) :
    (tw : ℤ) ≤ crop_new_w img tw th := by
  unfold crop_new_w
  have hwq : (0 : ℚ) < (img.w : ℚ) := by exact_mod_cast hw
  have hge : (tw : ℚ) ≤ (img.w : ℚ) * crop_scale img tw th := by
    calc (tw : ℚ) = (img.w : ℚ) * ((tw : ℚ) / (img.w : ℚ)) := by
          rw [mul_div_cancel₀ _ (ne_of_gt hwq)]
    _ ≤ (img.w : ℚ) * crop_scale img tw th :=
          mul_le_mul_of_nonneg_left (le_max_left _ _) (le_of_lt hwq)
  exact le_pyint (by exact_mod_cast hge)
    (le_trans (by positivity) hge)

theorem crop_new_h_ge (img : Img) (tw th : ℕ) (hh : 0 < img.h) :
    (th : ℤ) ≤ crop_new_h img tw th := by
  unfold crop_new_h
  have hhq : (0 : ℚ) < (img.h : ℚ) := by exact_mod_cast hh
  have hge : (th : ℚ) ≤ (img.h : ℚ) * crop_scale img tw th := by
    calc (th : ℚ) = (img.h : ℚ) * ((th : ℚ) / (img.h : ℚ)) := by
          rw [mul_div_cancel₀ _ (ne_of_gt hhq)]
    _ ≤ (img.h : ℚ) * crop_scale img tw th :=
          mul_le_mul_of_nonneg_left (le_max_right _ _) (le_of_lt hhq)
  exact le_pyint (by exact_mod_cast hge)
    (le_trans (by positivity) hge)

theorem crop_overflow_nonneg (img : Img) (tw th : ℕ) (hw : 0 < img.w) (hh : 0 < img.h) :
    0 ≤ crop_overflow img tw th := by
  unfold crop_overflow
  split
  · have := crop_new_w_ge img tw th hw
    omega
  · have := crop_new_h_ge img tw th hh
    omega

theorem crop_origin_eq_pick (mode : CropMode) (slider : ℕ) (img : Img) (tw th : ℕ) :
    crop_origin mode slider img tw th =
      crop_origin_pick mode slider (crop_overflow img tw th) := by
  unfold crop_origin crop_poster crop_overflow
  by_cases hlw : img.h < img.w <;> simp [hlw]

theorem crop_pick_bounds (mode : CropMode) (slider : ℕ) (ov : ℤ)
    (hov : 0 ≤ ov) (hs : slider ≤ 1000) :
    0 ≤ crop_origin_pick mode slider ov ∧ crop_origin_pick mode slider ov ≤ ov := by
  cases mode with
  | center =>
    simp only [crop_origin_pick]
    constructor
    · exact Int.fdiv_nonneg hov (by norm_num)
    · rw [Int.fdiv_eq_ediv _ (by norm_num)]
      exact Int.ediv_le_self 2 hov
  | top => exact ⟨le_refl 0, hov⟩
  | bottom => exact ⟨hov, le_refl ov⟩
  | manual =>
    have hq0 : (0 : ℚ) ≤ (ov : ℚ) * ((slider : ℚ) / 1000) :=
      mul_nonneg (by exact_mod_cast hov) (div_nonneg (Nat.cast_nonneg _) (by norm_num))
    have hq1 : (ov : ℚ) * ((slider : ℚ) / 1000) ≤ (ov : ℚ) := by
      have hle1 : (slider : ℚ) / 1000 ≤ 1 := by
        rw [div_le_one (by norm_num : (0 : ℚ) < 1000)]
        exact_mod_cast hs
      exact mul_le_of_le_one_right (by exact_mod_cast hov) hle1
    exact ⟨pyint_nonneg hq0, pyint_le hq0 hq1⟩

/-- C3: the overflow computed by `crop_poster` on the orientation-selected
axis is never negative (the cover scale is at least each target ratio);
in every crop mode the crop origin lies within `[0, overflow]`, in manual
mode it equals `int(overflow * slider/1000)` — which already lies inside
`[0, overflow]`, so clamping it there is the identity — and whenever the
overflow is zero (it cannot be negative) the origin is zero in every
mode. -/
theorem C3_crop_origin (img : Img) (tw th : ℕ) (mode : CropMode) (slider : ℕ)
    (hw : 0 < img.w) (hh : 0 < img.h) (hs : slider ≤ 1000) :
    0 ≤ crop_overflow img tw th ∧
    0 ≤ crop_origin mode slider img tw th ∧
    crop_origin mode slider img tw th ≤ crop_overflow img tw th ∧
    (mode = CropMode.manual →
      crop_origin mode slider img tw th =
        max 0 (min (pyint ((crop_overflow img tw th : ℚ) * ((slider : ℚ) / 1000)))
          (crop_overflow img tw th))) ∧
    (crop_overflow img tw th ≤ 0 → crop_origin mode slider img tw th = 0) := by
  have hov := crop_overflow_nonneg img tw th hw hh
  have heq := crop_origin_eq_pick mode slider img tw th
  have hbnd := crop_pick_bounds mode slider (crop_overflow img tw th) hov hs
  refine ⟨hov, heq ▸ hbnd.1, heq ▸ hbnd.2, ?_, ?_⟩
  · intro hm
    subst hm
    rw [heq]
    have h0 : 0 ≤ pyint ((crop_overflow img tw th : ℚ) * ((slider : ℚ) / 1000)) := by
      have := crop_pick_bounds CropMode.manual slider (crop_overflow img tw th) hov hs
      exact this.1
    have h1 : pyint ((crop_overflow img tw th : ℚ) * ((slider : ℚ) / 1000)) ≤
        crop_overflow img tw th := by
      have := crop_pick_bounds CropMode.manual slider (crop_overflow img tw th) hov hs
      exact this.2
    rw [min_eq_left h1, max_eq_right h0]
    rfl
  · intro hle
    have hzero : crop_overflow img tw th = 0 := le_antisymm hle hov
    rw [heq, hzero]
    cases mode with
    | center => simp [crop_origin_pick, Int.zero_fdiv]
    | top => rfl
    | bottom => rfl
    | manual => simp [crop_origin_pick, pyint]

/-- C3 witness: a portrait 30×90 cover, 20×40 target, manual mode with
the slider at 500. -/
theorem C3_crop_origin_witness :
    0 < (Img.mk 30 90).w ∧ 0 < (Img.mk 30 90).h ∧ (500 : ℕ) ≤ 1000 ∧
    (0 ≤ crop_overflow (Img.mk 30 90) 20 40 ∧
      0 ≤ crop_origin CropMode.manual 500 (Img.mk 30 90) 20 40 ∧
      crop_origin CropMode.manual 500 (Img.mk 30 90) 20 40 ≤
        crop_overflow (Img.mk 30 90) 20 40 ∧
      (CropMode.manual = CropMode.manual →
        crop_origin CropMode.manual 500 (Img.mk 30 90) 20 40 =
          max 0 (min (pyint ((crop_overflow (Img.mk 30 90) 20 40 : ℚ) * ((500 : ℚ) / 1000)))
            (crop_overflow (Img.mk 30 90) 20 40))) ∧
      (crop_overflow (Img.mk 30 90) 20 40 ≤ 0 →
        crop_origin CropMode.manual 500 (Img.mk 30 90) 20 40 = 0)) :=
  ⟨by norm_num, by norm_num, by norm_num,
   C3_crop_origin (Img.mk 30 90) 20 40 CropMode.manual 500
     (by norm_num) (by norm_num) (by norm_num)⟩

def strA : String := "A"

def strB : String := "B"

def sampleAB : String := "A\n\nB"

theorem wrap_count_blank (measure : String → ℚ) (maxW : ℚ) :
    ∀ ps : List String,
      ((ps.map (wrap_line measure maxW)).flatten).count emptyS =
        ps.countP (fun p => strBlank p) := by
  intro ps
  induction ps with
  | nil => simp
  | cons p ps ih =>
    simp only [List.map_cons, List.flatten_cons, List.count_append, List.countP_cons, ih]
    rcases hb : strBlank p with _ | _
    · have hline : wrap_line measure maxW p =
          wrap_core measure maxW (splitChar spChar p) emptyS := by
        rw [wrap_line, if_neg (by simp [hb])]
      rw [hline]
      have hz : (wrap_core measure maxW (splitChar spChar p) emptyS).count emptyS = 0 :=
        List.count_eq_zero.mpr (fun hmem => wrap_core_no_blank measure maxW _ _ _ hmem rfl)
      simp [hz, hb]
    · have hline : wrap_line measure maxW p = [emptyS] := by
        rw [wrap_line, if_pos (by simp [hb])]
      rw [hline]
      simp [hb, Nat.add_comm]

/-- C6: the wrapping engine splits on explicit line breaks and emits one
blank output line for every empty/whitespace-only paragraph (and only
for those); in particular the summary `"A\n\nB"`, with both words
fitting the box width, wraps to exactly the three lines
`"A"`, blank, `"B"`. -/
theorem C6_blank_lines (measure : String → ℚ) (maxW : ℚ)
    (hA : measure strA ≤ maxW) (hB : measure strB ≤ maxW) :
    wrap_text measure maxW sampleAB = [strA, emptyS, strB] ∧
    ∀ text : String,
      (wrap_text measure maxW text).count emptyS =
        (splitChar nlChar text).countP (fun p => strBlank p) := by
  constructor
  · have hsp : splitChar nlChar sampleAB = [strA, emptyS, strB] := by decide
    have e1 : splitChar spChar strA = [strA] := by decide
    have e2 : splitChar spChar strB = [strB] := by decide
    have e3 : strBlank strA = false := by decide
    have e4 : strBlank strB = false := by decide
    have e5 : strBlank emptyS = true := by decide
    have e6 : strA ≠ emptyS := by decide
    have e7 : strB ≠ emptyS := by decide
    rw [wrap_text, hsp]
    simp only [List.map_cons, List.map_nil, List.flatten_cons, List.flatten_nil]
    rw [show wrap_line measure maxW strA = wrap_core measure maxW [strA] emptyS by
      rw [wrap_line, if_neg (by simp [e3]), e1]]
    rw [show wrap_line measure maxW strB = wrap_core measure maxW [strB] emptyS by
      rw [wrap_line, if_neg (by simp [e4]), e2]]
    rw [show wrap_line measure maxW emptyS = [emptyS] by
      rw [wrap_line, if_pos (by simp [e5])]]
    simp only [wrap_core, if_pos rfl, hA, hB, if_true, if_neg e6, if_neg e7]
    simp
  · intro text
    rw [wrap_text]
    exact wrap_count_blank measure maxW (splitChar nlChar text)

/-- C6 witness: the zero-width measure (every word fits any box). -/
theorem C6_blank_lines_witness :
    ((fun _ : String => (0 : ℚ)) strA ≤ 0) ∧ ((fun _ : String => (0 : ℚ)) strB ≤ 0) ∧
    (wrap_text (fun _ => 0) 0 sampleAB = [strA, emptyS, strB] ∧
      ∀ text : String,
        (wrap_text (fun _ => 0) 0 text).count emptyS =
          (splitChar nlChar text).countP (fun p => strBlank p)) :=
  ⟨le_refl 0, le_refl 0, C6_blank_lines (fun _ => 0) 0 (le_refl 0) (le_refl 0)⟩

/-- C9: `render` always returns a raster of exactly `CARD_W × CARD_H`
with no alpha channel (`Image.new("RGB", ...)`; pastes and rectangle
fills change pixels, never geometry or mode), for every combination of
present/absent assets, colors and crop settings. -/
theorem C9_render_dims (st : St) :
    (render st).width = CARD_W ∧ (render st).height = CARD_H ∧
    (render st).alphaChannel = false :=
  ⟨rfl, rfl, rfl⟩

/-- C7: loading a new default (all-sides) logo clears that family's
override slots, and the invariant "an override slot is non-empty only if
its default slot is non-empty" is preserved by every asset-loading
operation. -/
theorem C7_override_reset (a : Assets) (img : Img) (s : String) (hInv : overridesValid a) :
    ((load_system_logo a SysTarget.allSides img).system_logo_front = none ∧
     (load_system_logo a SysTarget.allSides img).system_logo_spine = none ∧
     (load_system_logo a SysTarget.allSides img).system_logo_back = none) ∧
    ((load_title_logo a TitleTarget.allSides img).title_logo_spine = none ∧
     (load_title_logo a TitleTarget.allSides img).title_logo_back = none) ∧
    (∀ t : SysTarget, overridesValid (load_system_logo a t img)) ∧
    (∀ t : TitleTarget, overridesValid (load_title_logo a t img)) ∧
    (∀ k : SimpleKey, overridesValid (load_simple_asset a k img)) ∧
    overridesValid (set_summary a s) := by
  obtain ⟨h1, h2, h3, h4, h5⟩ := hInv
  refine ⟨?_, ?_, ?_, ?_, ?_, ?_⟩
  · simp [load_system_logo]
  · simp [load_title_logo]
  · intro t
    cases t <;>
      by_cases hd : a.system_logo_default = none <;>
      simp_all [load_system_logo, overridesValid, Option.isSome_iff_ne_none]
  · intro t
    cases t <;>
      by_cases hd : a.title_logo_default = none <;>
      simp_all [load_title_logo, overridesValid, Option.isSome_iff_ne_none]
  · intro k
    cases k <;> simp_all [load_simple_asset, overridesValid]
  · simp_all [set_summary, overridesValid]

/-- C7 witness: a bundle with a default system logo and a front override. -/
theorem C7_override_reset_witness :
    overridesValid
      ⟨none, none, none, none, some (Img.mk 5 5), some (Img.mk 4 4), none, none,
        none, none, emptyS⟩ ∧
    (((load_system_logo
        ⟨none, none, none, none, some (Img.mk 5 5), some (Img.mk 4 4), none, none,
          none, none, emptyS⟩ SysTarget.allSides (Img.mk 7 7)).system_logo_front = none ∧
      (load_system_logo
        ⟨none, none, none, none, some (Img.mk 5 5), some (Img.mk 4 4), none, none,
          none, none, emptyS⟩ SysTarget.allSides (Img.mk 7 7)).system_logo_spine = none ∧
      (load_system_logo
        ⟨none, none, none, none, some (Img.mk 5 5), some (Img.mk 4 4), none, none,
          none, none, emptyS⟩ SysTarget.allSides (Img.mk 7 7)).system_logo_back = none) ∧
     ((load_title_logo
        ⟨none, none, none, none, some (Img.mk 5 5), some (Img.mk 4 4), none, none,
          none, none, emptyS⟩ TitleTarget.allSides (Img.mk 7 7)).title_logo_spine = none ∧
      (load_title_logo
        ⟨none, none, none, none, some (Img.mk 5 5), some (Img.mk 4 4), none, none,
          none, none, emptyS⟩ TitleTarget.allSides (Img.mk 7 7)).title_logo_back = none) ∧
     (∀ t : SysTarget, overridesValid (load_system_logo
        ⟨none, none, none, none, some (Img.mk 5 5), some (Img.mk 4 4), none, none,
          none, none, emptyS⟩ t (Img.mk 7 7))) ∧
     (∀ t : TitleTarget, overridesValid (load_title_logo
        ⟨none, none, none, none, some (Img.mk 5 5), some (Img.mk 4 4), none, none,
          none, none, emptyS⟩ t (Img.mk 7 7))) ∧
     (∀ k : SimpleKey, overridesValid (load_simple_asset
        ⟨none, none, none, none, some (Img.mk 5 5), some (Img.mk 4 4), none, none,
          none, none, emptyS⟩ k (Img.mk 7 7))) ∧
     overridesValid (set_summary
        ⟨none, none, none, none, some (Img.mk 5 5), some (Img.mk 4 4), none, none,
          none, none, emptyS⟩ strA)) :=
  ⟨by simp [overridesValid],
   C7_override_reset _ (Img.mk 7 7) strA (by simp [overridesValid])⟩

theorem render_back_of_tag (st : St) (r : PasteRec) (hr : r ∈ (render st).pastes)
    (he : r.elem = Elem.titleBackE ∨ r.elem = Elem.screenshotE ∨ r.elem = Elem.textBoxE ∨
      r.elem = Elem.origCoverE ∨ r.elem = Elem.sysBackE ∨ r.elem = Elem.nfcBackE) :
    r ∈ back_pastes st := by
  rcases render_mem_cases st r hr with h | h | h
  · rcases mem_front_tags st r h with h1 | h1 | h1 <;>
      rcases he with h2 | h2 | h2 | h2 | h2 | h2 <;> simp_all
  · rcases mem_spine_tags st r h with h1 | h1 | h1 <;>
      rcases he with h2 | h2 | h2 | h2 | h2 | h2 <;> simp_all
  · exact h

theorem render_spine_of_tag (st : St) (r : PasteRec) (hr : r ∈ (render st).pastes)
    (he : r.elem = Elem.sysSpineE ∨ r.elem = Elem.titleSpineE ∨ r.elem = Elem.nfcSpineE) :
    r ∈ spine_pastes st := by
  rcases render_mem_cases st r hr with h | h | h
  · rcases mem_front_tags st r h with h1 | h1 | h1 <;>
      rcases he with h2 | h2 | h2 <;> simp_all
  · exact h
  · rcases mem_back_tags st r h with h1 | h1 | h1 | h1 | h1 | h1 <;>
      rcases he with h2 | h2 | h2 <;> simp_all

def sampleOverflow : String := "a\na\na"

/-- C2 counterexample: the claim "emitted line count × line height ≤
maxHeight" fails.  With a line height of 8 (ascent 5 + descent 3, say)
and a budget of 10, the three-line summary `"a\na\na"` (every word fits
any box under the zero-width measure) has its third line dropped — so it
overflows the box — yet two lines are emitted and `2 × 8 = 16 > 10`:
the last emitted line starts inside the box but extends past its end. -/
theorem C2_counterexample :
    (wrap_text (fun _ => 0) 0 sampleOverflow).length = 3 ∧
    emit_count 8 10 (wrap_text (fun _ => 0) 0 sampleOverflow) 0 = 2 ∧
    ¬((emit_count 8 10 (wrap_text (fun _ => 0) 0 sampleOverflow) 0 : ℤ) * 8 ≤ 10) := by
  refine ⟨by decide, by decide, ?_⟩
  rw [show emit_count 8 10 (wrap_text (fun _ => 0) 0 sampleOverflow) 0 = 2 from by decide]
  decide

/-- C2 (amended): the drawing loop drops a line exactly when its top
`i × lineH` is at or beyond `maxHeight`, so every emitted line count `n`
satisfies `n × lineH < maxHeight + lineH` (the bound `n × lineH ≤
maxHeight` claimed by the spec fails when `lineH` does not divide
`maxHeight`); every drawn line top lies in `[0, maxHeight)`; and since
the drawing happens inside the transparent text box, which `render`
pastes so that its bottom edge coincides with the start of the reserved
bottom zone, no drawn text row reaches the space reserved for
bottom-anchored elements. -/
theorem C2_amended :
    (∀ (lineH : ℕ) (maxH : ℤ) (ls : List String), 0 < lineH → 0 < maxH →
      (emit_count lineH maxH ls 0 : ℤ) * lineH < maxH + lineH) ∧
    (∀ (lineH : ℕ) (maxH : ℤ) (ls : List String) (p : String × ℤ),
      p ∈ draw_lines lineH maxH ls 0 → 0 ≤ p.2 ∧ p.2 < maxH) ∧
    (∀ (lineH : ℕ) (maxH : ℤ) (ls : List String),
      ∀ i, i < ls.length → (i < emit_count lineH maxH ls 0 ↔ (i : ℤ) * lineH < maxH)) ∧
    (∀ st : St, ∀ r ∈ (render st).pastes, r.elem = Elem.textBoxE →
      ∀ row : ℕ, row < r.img.h →
        r.y + (row : ℤ) < (CARD_H : ℤ) - specBottomReserved st) := by
  refine ⟨?_, ?_, ?_, ?_⟩
  · intro lineH maxH ls hlh hmax
    rcases hn : emit_count lineH maxH ls 0 with _ | m
    · simp
      omega
    · have hm : m < ls.length :=
        Nat.lt_of_lt_of_le (by omega) (hn ▸ emit_count_le_length lineH maxH ls 0)
      have hiff := (emit_count_iff lineH maxH ls 0 m hm).mp (by omega)
      have hcast : ((m + 1 : ℕ) : ℤ) * lineH = (m : ℤ) * lineH + lineH := by
        push_cast
        ring
      rw [hcast]
      omega
  · intro lineH maxH ls p hp
    exact draw_lines_top lineH maxH ls 0 p hp
  · intro lineH maxH ls i hi
    have := emit_count_iff lineH maxH ls 0 i hi
    simpa using this
  · intro st r hr he row hrow
    have hb := render_back_of_tag st r hr (Or.inr (Or.inr (Or.inl he)))
    obtain ⟨hsum, hwch, hhch, hych⟩ := back_text_char st r hb he
    rw [hhch] at hrow
    rw [hych]
    have hrow2 : (row : ℤ) < specTextBudget st := by omega
    unfold specTextBudget at hrow2
    omega

/-- C2 witness: the count bound at line height 8 and budget 10. -/
theorem C2_amended_witness :
    (0 : ℕ) < 8 ∧ (0 : ℤ) < 10 ∧
    (emit_count 8 10 [strA, strA, strA] 0 : ℤ) * 8 < 10 + 8 :=
  ⟨by norm_num, by norm_num, C2_amended.1 8 10 [strA, strA, strA] (by norm_num) (by norm_num)⟩

/-- The 300×100 decorative-mark bitmap used in concrete instantiations. -/
def imgMark : Img := Img.mk 300 100

/-- A trivial font environment for concrete states. -/
def font0 : Font := ⟨fun _ => 0, 5, 3⟩

/-- The empty asset bundle. -/
def assetsEmpty : Assets :=
  ⟨none, none, none, none, none, none, none, none, none, none, emptyS⟩

/-- A concrete state: no assets, both mark bitmaps 300×100. -/
def stEx : St :=
  ⟨assetsEmpty, imgMark, imgMark, NfcColor.white, NfcColor.white, NfcColor.white,
   CropMode.center, 0, font0⟩

theorem fit_mark_spine : fit_image imgMark NFC_SPINE_MAX = Img.mk 270 90 := by
  rw [fit_image, if_pos (by norm_num [imgMark, NFC_SPINE_MAX])]
  norm_num [imgMark, NFC_SPINE_MAX, pyint, min_def]
  omega

theorem fit_rot_mark_spine : fit_image (rotate90 imgMark) NFC_SPINE_MAX = Img.mk 50 150 := by
  rw [fit_image, if_pos (by norm_num [imgMark, NFC_SPINE_MAX, rotate90])]
  norm_num [imgMark, NFC_SPINE_MAX, rotate90, pyint, min_def]
  omega

/-- C1 counterexample: for the 300×100 mark bitmap, the spine mark that
`render` pastes is `rotate90(fitShrink(mark, 270×150)) = 90×270`, which
differs from the claimed `fitShrink(rotate90(mark), 270×150) = 50×150` —
the source fits first and rotates afterwards for the decorative mark. -/
theorem C1_counterexample :
    ∃ r ∈ (render stEx).pastes, r.elem = Elem.nfcSpineE ∧
      r.img ≠ fit_image (rotate90 (stEx.nfcBmp stEx.nfc_spine)) NFC_SPINE_MAX := by
  obtain ⟨r, hmem, he⟩ := spine_nfc_mem stEx
  have himg := spine_nfc_char stEx r hmem he
  refine ⟨r, ?_, he, ?_⟩
  · simp only [render]
    exact List.mem_append_left _ (List.mem_append_right _ hmem)
  · rw [himg]
    have hbmp : stEx.nfcBmp stEx.nfc_spine = imgMark := rfl
    rw [hbmp, fit_mark_spine, fit_rot_mark_spine]
    simp [rotate90]

/-- C1 (amended): on the spine, the system logo and the title logo are
rotated 90° (expanding) and then shrink-fitted into their boxes, but the
decorative mark is shrink-fitted into its box first and rotated
afterwards: the pasted spine mark is
`rotate90(fitShrink(mark, NFC_SPINE_MAX))`. -/
theorem C1_amended (st : St) :
    (∃ r ∈ (render st).pastes, r.elem = Elem.nfcSpineE) ∧
    (∀ r ∈ (render st).pastes, r.elem = Elem.nfcSpineE →
      r.img = rotate90 (fit_image (st.nfcBmp st.nfc_spine) NFC_SPINE_MAX)) ∧
    (∀ l, orDefault st.assets.system_logo_spine st.assets.system_logo_default = some l →
      ∀ r ∈ (render st).pastes, r.elem = Elem.sysSpineE →
        r.img = fit_image (rotate90 l) SYSTEM_LOGO_SPINE_MAX) ∧
    (∀ l, orDefault st.assets.title_logo_spine st.assets.title_logo_default = some l →
      ∀ r ∈ (render st).pastes, r.elem = Elem.titleSpineE →
        r.img = fit_image (rotate90 l) TITLE_LOGO_SPINE_MAX) := by
  refine ⟨?_, ?_, ?_, ?_⟩
  · obtain ⟨r, hmem, he⟩ := spine_nfc_mem st
    refine ⟨r, ?_, he⟩
    simp only [render]
    exact List.mem_append_left _ (List.mem_append_right _ hmem)
  · intro r hr he
    exact spine_nfc_char st r (render_spine_of_tag st r hr (Or.inr (Or.inr he))) he
  · intro l hl r hr he
    exact spine_sys_char st l hl r (render_spine_of_tag st r hr (Or.inl he)) he
  · intro l hl r hr he
    exact spine_title_char st l hl r (render_spine_of_tag st r hr (Or.inr (Or.inl he))) he

/-- A concrete state with a default system logo (so the spine shows it). -/
def stC1 : St :=
  ⟨⟨none, none, none, none, some (Img.mk 50 60), none, none, none, none, none, emptyS⟩,
   imgMark, imgMark, NfcColor.white, NfcColor.white, NfcColor.white,
   CropMode.center, 0, font0⟩

/-- C1 witness: instantiating the amended claim at a concrete state with
a default system logo. -/
theorem C1_amended_witness :
    orDefault stC1.assets.system_logo_spine stC1.assets.system_logo_default =
      some (Img.mk 50 60) ∧
    (∀ r ∈ (render stC1).pastes, r.elem = Elem.sysSpineE →
      r.img = fit_image (rotate90 (Img.mk 50 60)) SYSTEM_LOGO_SPINE_MAX) :=
  ⟨rfl, (C1_amended stC1).2.2.1 (Img.mk 50 60) rfl⟩

theorem back_sys_present (st : St) :
    ∀ r ∈ back_pastes st, r.elem = Elem.sysBackE → ∃ l, sysBackFit st = some l := by
  unfold back_pastes
  rcases h1 : titleBackFit st with _ | t <;>
    rcases h2 : shotFit st with _ | s <;>
    by_cases h3 : st.assets.summary = emptyS <;>
    rcases h4 : origBackFit st with _ | oc <;>
    rcases h5 : sysBackFit st with _ | l <;>
    simp [h1, h2, h3, h4, h5, List.forall_mem_append]

theorem back_orig_present (st : St) :
    ∀ r ∈ back_pastes st, r.elem = Elem.origCoverE → ∃ oi, origBackFit st = some oi := by
  unfold back_pastes
  rcases h1 : titleBackFit st with _ | t <;>
    rcases h2 : shotFit st with _ | s <;>
    by_cases h3 : st.assets.summary = emptyS <;>
    rcases h4 : origBackFit st with _ | oc <;>
    rcases h5 : sysBackFit st with _ | l <;>
    simp [h1, h2, h3, h4, h5, List.forall_mem_append]

theorem titleBackFit_h_le (st : St) (t : Img) (ht : titleBackFit st = some t) :
    t.h ≤ TITLE_LOGO_BACK_MAX.2 := by
  unfold titleBackFit at ht
  obtain ⟨x, _, rfl⟩ := Option.map_eq_some'.mp ht
  exact fit_image_h_le x TITLE_LOGO_BACK_MAX

theorem shotFit_h_le (st : St) (s : Img) (hs : shotFit st = some s) :
    s.h ≤ SCREENSHOT_MAX.2 := by
  unfold shotFit at hs
  obtain ⟨x, _, rfl⟩ := Option.map_eq_some'.mp hs
  exact fit_image_h_le x SCREENSHOT_MAX

theorem sysBackFit_h_le (st : St) (l : Img) (hl : sysBackFit st = some l) :
    l.h ≤ SYSTEM_LOGO_BACK_MAX.2 := by
  unfold sysBackFit at hl
  obtain ⟨x, _, rfl⟩ := Option.map_eq_some'.mp hl
  exact fit_image_h_le x SYSTEM_LOGO_BACK_MAX

theorem origBackFit_h_le (st : St) (oi : Img) (hoi : origBackFit st = some oi) :
    oi.h ≤ ORIGINAL_COVER_BACK_MAX.2 := by
  unfold origBackFit at hoi
  obtain ⟨x, _, rfl⟩ := Option.map_eq_some'.mp hoi
  exact fit_image_h_le x ORIGINAL_COVER_BACK_MAX

theorem specTopCursor_le (st : St) : specTopCursor st ≤ 676 := by
  have hT : (match titleBackFit st with
             | some t => (t.h : ℤ) + (BACK_GAP : ℤ)
             | none => 0) ≤ 210 := by
    rcases h1 : titleBackFit st with _ | t
    · norm_num
    · have hb := titleBackFit_h_le st t h1
      simp only [TITLE_LOGO_BACK_MAX] at hb
      have hcast : (t.h : ℤ) ≤ 180 := by exact_mod_cast hb
      show (t.h : ℤ) + (BACK_GAP : ℤ) ≤ 210
      calc (t.h : ℤ) + (BACK_GAP : ℤ) ≤ 180 + 30 :=
            add_le_add hcast (by norm_num [BACK_GAP])
      _ ≤ 210 := by norm_num
  have hS : (match shotFit st with
             | some s => (s.h : ℤ) + (BACK_GAP : ℤ)
             | none => 0) ≤ 450 := by
    rcases h2 : shotFit st with _ | s
    · norm_num
    · have hb := shotFit_h_le st s h2
      simp only [SCREENSHOT_MAX] at hb
      have hcast : (s.h : ℤ) ≤ 420 := by exact_mod_cast hb
      show (s.h : ℤ) + (BACK_GAP : ℤ) ≤ 450
      calc (s.h : ℤ) + (BACK_GAP : ℤ) ≤ 420 + 30 :=
            add_le_add hcast (by norm_num [BACK_GAP])
      _ ≤ 450 := by norm_num
  unfold specTopCursor
  calc (PADDING : ℤ) +
        (match titleBackFit st with
         | some t => (t.h : ℤ) + (BACK_GAP : ℤ)
         | none => 0) +
        (match shotFit st with
         | some s => (s.h : ℤ) + (BACK_GAP : ℤ)
         | none => 0) ≤ 16 + 210 + 450 :=
        add_le_add (add_le_add (by norm_num [PADDING]) hT) hS
  _ ≤ 676 := by norm_num

theorem specBottomReserved_le (st : St) : specBottomReserved st ≤ 290 := by
  have hn : ((nfcBackFit st).h : ℤ) ≤ 100 := by
    have := fit_image_h_le (st.nfcBmp st.nfc_back) NFC_BACK_MAX
    simp only [NFC_BACK_MAX] at this
    exact_mod_cast this
  have hSy : (match sysBackFit st with
              | some s => (s.h : ℤ) + (BACK_GAP : ℤ)
              | none => 0) ≤ 130 := by
    rcases h5 : sysBackFit st with _ | l
    · norm_num
    · have hb := sysBackFit_h_le st l h5
      simp only [SYSTEM_LOGO_BACK_MAX] at hb
      have hcast : (l.h : ℤ) ≤ 100 := by exact_mod_cast hb
      show (l.h : ℤ) + (BACK_GAP : ℤ) ≤ 130
      calc (l.h : ℤ) + (BACK_GAP : ℤ) ≤ 100 + 30 :=
            add_le_add hcast (by norm_num [BACK_GAP])
      _ ≤ 130 := by norm_num
  unfold specBottomReserved
  calc (NFC_MARGIN : ℤ) + ((nfcBackFit st).h : ℤ) + (BACK_GAP : ℤ) +
        (match sysBackFit st with
         | some s => (s.h : ℤ) + (BACK_GAP : ℤ)
         | none => 0) ≤ 30 + 100 + 30 + 130 :=
        add_le_add (add_le_add (add_le_add (by norm_num [NFC_MARGIN]) hn)
          (by norm_num [BACK_GAP])) hSy
  _ ≤ 290 := by norm_num

theorem specTextBudget_ge (st : St) : 634 ≤ specTextBudget st := by
  have h1 := specTopCursor_le st
  have h2 := specBottomReserved_le st
  unfold specTextBudget
  have hc : (CARD_H : ℤ) = 1600 := by norm_num [CARD_H]
  rw [hc]
  omega

/-- C4: when the summary is non-empty, the text box `render` pastes has
height exactly `CARD_H - (top cursor y) - bottom reservation`, computed
before the text is laid out, where the top cursor is `PADDING` advanced
by (height + gap) for the title logo and the screenshot when present,
and the bottom reservation is margin + mark height + gap, plus
system-logo height + gap exactly when a back-or-default system logo is
present, and nothing more. -/
theorem C4_text_budget (st : St) (hsum : st.assets.summary ≠ emptyS) :
    (∃ r ∈ (render st).pastes, r.elem = Elem.textBoxE) ∧
    (∀ r ∈ (render st).pastes, r.elem = Elem.textBoxE →
      (r.img.h : ℤ) = (CARD_H : ℤ) - specTopCursor st - specBottomReserved st ∧
      r.y = specTopCursor st) := by
  constructor
  · obtain ⟨r, hmem, he⟩ := back_text_mem st hsum
    refine ⟨r, ?_, he⟩
    simp only [render]
    exact List.mem_append_right _ hmem
  · intro r hr he
    have hb := render_back_of_tag st r hr (Or.inr (Or.inr (Or.inl he)))
    obtain ⟨_, _, hh, hy⟩ := back_text_char st r hb he
    have hpos : 0 ≤ specTextBudget st := le_trans (by norm_num) (specTextBudget_ge st)
    constructor
    · rw [hh]
      rw [Int.toNat_of_nonneg hpos]
      unfold specTextBudget
      omega
    · exact hy

/-- A concrete state with only a summary set. -/
def stTxt : St :=
  ⟨⟨none, none, none, none, none, none, none, none, none, none, strA⟩,
   imgMark, imgMark, NfcColor.white, NfcColor.white, NfcColor.white,
   CropMode.center, 0, font0⟩

/-- C4 witness: the budget equation at a state with summary "A". -/
theorem C4_text_budget_witness :
    stTxt.assets.summary ≠ emptyS ∧
    ((∃ r ∈ (render stTxt).pastes, r.elem = Elem.textBoxE) ∧
     (∀ r ∈ (render stTxt).pastes, r.elem = Elem.textBoxE →
       (r.img.h : ℤ) = (CARD_H : ℤ) - specTopCursor stTxt - specBottomReserved stTxt ∧
       r.y = specTopCursor stTxt)) :=
  ⟨by decide, C4_text_budget stTxt (by decide)⟩

/-- C5: on the back panel the decorative mark's top edge is at
`CARD_H - markHeight - margin`; a present back-or-default system logo
sits directly above the mark separated by the fixed gap; a present
secondary/original cover sits directly above the top of the current
bottom stack — the system logo when present, else the mark — separated
by the fixed gap; and the vertical extents of these bottom-anchored
elements are pairwise disjoint, so their rectangles never overlap. -/
theorem C5_bottom_stack (st : St) :
    (∃ r ∈ (render st).pastes, r.elem = Elem.nfcBackE) ∧
    (∀ r ∈ (render st).pastes, r.elem = Elem.nfcBackE →
      r.y = (CARD_H : ℤ) - r.img.h - (NFC_MARGIN : ℤ)) ∧
    (∀ l, sysBackFit st = some l →
      (∃ r ∈ (render st).pastes, r.elem = Elem.sysBackE) ∧
      (∀ rs ∈ (render st).pastes, rs.elem = Elem.sysBackE →
        ∀ rn ∈ (render st).pastes, rn.elem = Elem.nfcBackE →
          rs.y + rs.img.h + (BACK_GAP : ℤ) = rn.y)) ∧
    (∀ oi, origBackFit st = some oi →
      (∃ r ∈ (render st).pastes, r.elem = Elem.origCoverE) ∧
      (∀ ro ∈ (render st).pastes, ro.elem = Elem.origCoverE →
        (∀ l, sysBackFit st = some l →
          ∀ rs ∈ (render st).pastes, rs.elem = Elem.sysBackE →
            ro.y + ro.img.h + (BACK_GAP : ℤ) = rs.y) ∧
        (sysBackFit st = none →
          ∀ rn ∈ (render st).pastes, rn.elem = Elem.nfcBackE →
            ro.y + ro.img.h + (BACK_GAP : ℤ) = rn.y))) ∧
    (∀ r1 ∈ (render st).pastes, ∀ r2 ∈ (render st).pastes,
      (r1.elem = Elem.origCoverE ∨ r1.elem = Elem.sysBackE ∨ r1.elem = Elem.nfcBackE) →
      (r2.elem = Elem.origCoverE ∨ r2.elem = Elem.sysBackE ∨ r2.elem = Elem.nfcBackE) →
      r1.elem ≠ r2.elem →
      r1.y + r1.img.h ≤ r2.y ∨ r2.y + r2.img.h ≤ r1.y) := by
  have liftB : ∀ {r : PasteRec}, r ∈ back_pastes st → r ∈ (render st).pastes := by
    intro r hr
    simp only [render]
    exact List.mem_append_right _ hr
  have backOf : ∀ {r : PasteRec}, r ∈ (render st).pastes →
      (r.elem = Elem.origCoverE ∨ r.elem = Elem.sysBackE ∨ r.elem = Elem.nfcBackE) →
      r ∈ back_pastes st := by
    intro r hr ht
    exact render_back_of_tag st r hr (by tauto)
  have hMark : ∀ r ∈ back_pastes st, r.elem = Elem.nfcBackE →
      r.y = nfcYpos st ∧ r.img = nfcBackFit st := by
    intro r hr he
    obtain ⟨hi, hy⟩ := back_nfc_char st r hr he
    exact ⟨hy, hi⟩
  have hSys : ∀ r ∈ back_pastes st, r.elem = Elem.sysBackE →
      ∃ l, sysBackFit st = some l ∧ r.img = l ∧ r.y = sysYpos st l := by
    intro r hr he
    obtain ⟨l, hl⟩ := back_sys_present st r hr he
    obtain ⟨hi, hy⟩ := back_sys_char st l hl r hr he
    exact ⟨l, hl, hi, hy⟩
  have hOrig : ∀ r ∈ back_pastes st, r.elem = Elem.origCoverE →
      ∃ oi, origBackFit st = some oi ∧ r.img = oi ∧
        r.y = stackAnchor st - oi.h - (BACK_GAP : ℤ) := by
    intro r hr he
    obtain ⟨oi, hoi⟩ := back_orig_present st r hr he
    obtain ⟨hi, hy⟩ := back_orig_char st oi hoi r hr he
    exact ⟨oi, hoi, hi, hy⟩
  refine ⟨?_, ?_, ?_, ?_, ?_⟩
  · obtain ⟨r, hmem, he⟩ := back_nfc_mem st
    exact ⟨r, liftB hmem, he⟩
  · intro r hr he
    obtain ⟨hy, hi⟩ := hMark r (backOf hr (by tauto)) he
    rw [hy, hi]
    rfl
  · intro l hl
    constructor
    · obtain ⟨r, hmem, he⟩ := back_sys_mem st l hl
      exact ⟨r, liftB hmem, he⟩
    · intro rs hrs hes rn hrn hen
      obtain ⟨l2, hl2, hi2, hy2⟩ := hSys rs (backOf hrs (by tauto)) hes
      obtain ⟨hyn, hin⟩ := hMark rn (backOf hrn (by tauto)) hen
      rw [hy2, hi2, hyn]
      unfold sysYpos
      omega
  · intro oi hoi
    constructor
    · obtain ⟨r, hmem, he⟩ := back_orig_mem st oi hoi
      exact ⟨r, liftB hmem, he⟩
    · intro ro hro heo
      obtain ⟨oi2, hoi2, hio, hyo⟩ := hOrig ro (backOf hro (by tauto)) heo
      constructor
      · intro l hl rs hrs hes
        obtain ⟨l2, hl2, hi2, hy2⟩ := hSys rs (backOf hrs (by tauto)) hes
        rw [hyo, hio, hy2, stackAnchor_some st l2 hl2]
        omega
      · intro hnone rn hrn hen
        obtain ⟨hyn, hin⟩ := hMark rn (backOf hrn (by tauto)) hen
        rw [hyo, hio, hyn, stackAnchor_none st hnone]
        omega
  · intro r1 hr1 r2 hr2 ht1 ht2 hne
    have hb1 := backOf hr1 ht1
    have hb2 := backOf hr2 ht2
    rcases ht1 with e1 | e1 | e1 <;> rcases ht2 with e2 | e2 | e2
    · exact absurd (e1.trans e2.symm) hne
    · left
      obtain ⟨oi, hoi, hio, hyo⟩ := hOrig r1 hb1 e1
      obtain ⟨l, hl, hil, hyl⟩ := hSys r2 hb2 e2
      rw [hyo, hio, hyl, stackAnchor_some st l hl]
      omega
    · left
      obtain ⟨oi, hoi, hio, hyo⟩ := hOrig r1 hb1 e1
      obtain ⟨hyn, hin⟩ := hMark r2 hb2 e2
      rw [hyo, hio, hyn]
      rcases h5 : sysBackFit st with _ | l
      · rw [stackAnchor_none st h5]
        omega
      · rw [stackAnchor_some st l h5]
        have hle : sysYpos st l ≤ nfcYpos st := by
          unfold sysYpos
          omega
        omega
    · right
      obtain ⟨oi, hoi, hio, hyo⟩ := hOrig r2 hb2 e2
      obtain ⟨l, hl, hil, hyl⟩ := hSys r1 hb1 e1
      rw [hyo, hio, hyl, stackAnchor_some st l hl]
      omega
    · exact absurd (e1.trans e2.symm) hne
    · left
      obtain ⟨l, hl, hil, hyl⟩ := hSys r1 hb1 e1
      obtain ⟨hyn, hin⟩ := hMark r2 hb2 e2
      rw [hyl, hil, hyn]
      unfold sysYpos
      omega
    · right
      obtain ⟨oi, hoi, hio, hyo⟩ := hOrig r2 hb2 e2
      obtain ⟨hyn, hin⟩ := hMark r1 hb1 e1
      rw [hyo, hio, hyn]
      rcases h5 : sysBackFit st with _ | l
      · rw [stackAnchor_none st h5]
        omega
      · rw [stackAnchor_some st l h5]
        have hle : sysYpos st l ≤ nfcYpos st := by
          unfold sysYpos
          omega
        omega
    · right
      obtain ⟨l, hl, hil, hyl⟩ := hSys r2 hb2 e2
      obtain ⟨hyn, hin⟩ := hMark r1 hb1 e1
      rw [hyl, hil, hyn]
      unfold sysYpos
      omega
    · exact absurd (e1.trans e2.symm) hne

/-- A concrete state with a default system logo and an original cover. -/
def stC5 : St :=
  ⟨⟨none, none, none, none, some (Img.mk 50 60), none, none, none,
    some (Img.mk 100 100), none, emptyS⟩,
   imgMark, imgMark, NfcColor.white, NfcColor.white, NfcColor.white,
   CropMode.center, 0, font0⟩

/-- C5 witness: the logo-above-mark relation at a concrete state. -/
theorem C5_bottom_stack_witness :
    sysBackFit stC5 = some (Img.mk 50 60) ∧
    ((∃ r ∈ (render stC5).pastes, r.elem = Elem.sysBackE) ∧
     (∀ rs ∈ (render stC5).pastes, rs.elem = Elem.sysBackE →
       ∀ rn ∈ (render stC5).pastes, rn.elem = Elem.nfcBackE →
         rs.y + rs.img.h + (BACK_GAP : ℤ) = rn.y)) :=
  ⟨by decide, (C5_bottom_stack stC5).2.2.1 (Img.mk 50 60) (by decide)⟩

theorem specBottomReserved_some (st : St) (l : Img) (h : sysBackFit st = some l) :
    specBottomReserved st =
      (NFC_MARGIN : ℤ) + (nfcBackFit st).h + (BACK_GAP : ℤ) + (l.h + (BACK_GAP : ℤ)) := by
  unfold specBottomReserved
  rw [h]

theorem specBottomReserved_none (st : St) (h : sysBackFit st = none) :
    specBottomReserved st = (NFC_MARGIN : ℤ) + (nfcBackFit st).h + (BACK_GAP : ℤ) := by
  unfold specBottomReserved
  rw [h]
  simp

/-- C10: with a non-empty summary and a secondary/original cover both
present, the bottom reservation subtracted from the text budget accounts
only for the mark and (when present) the system logo — never for the
secondary cover — so the text box's bottom edge coincides exactly with
the secondary cover's bottom edge and the secondary cover's vertical
extent lies entirely within the text box's vertical extent: a long
enough summary draws over the secondary cover. -/
theorem C10_text_over_secondary (st : St) (hsum : st.assets.summary ≠ emptyS)
    (oi : Img) (hoi : origBackFit st = some oi) :
    (∃ rt ∈ (render st).pastes, rt.elem = Elem.textBoxE) ∧
    (∃ ro ∈ (render st).pastes, ro.elem = Elem.origCoverE) ∧
    (∀ rt ∈ (render st).pastes, rt.elem = Elem.textBoxE →
      rt.y + rt.img.h = (CARD_H : ℤ) - specBottomReserved st) ∧
    (∀ rt ∈ (render st).pastes, rt.elem = Elem.textBoxE →
      ∀ ro ∈ (render st).pastes, ro.elem = Elem.origCoverE →
        rt.y + rt.img.h = ro.y + ro.img.h ∧ rt.y ≤ ro.y) := by
  have liftB : ∀ {r : PasteRec}, r ∈ back_pastes st → r ∈ (render st).pastes := by
    intro r hr
    simp only [render]
    exact List.mem_append_right _ hr
  have hbud := specTextBudget_ge st
  have hTB : ∀ rt ∈ (render st).pastes, rt.elem = Elem.textBoxE →
      rt.y + rt.img.h = (CARD_H : ℤ) - specBottomReserved st := by
    intro rt hrt het
    have hb := render_back_of_tag st rt hrt (Or.inr (Or.inr (Or.inl het)))
    obtain ⟨_, _, hh, hy⟩ := back_text_char st rt hb het
    have hcast : (rt.img.h : ℤ) = specTextBudget st := by
      rw [hh]
      exact Int.toNat_of_nonneg (by omega)
    rw [hy, hcast]
    unfold specTextBudget
    omega
  have hORI : ∀ ro ∈ (render st).pastes, ro.elem = Elem.origCoverE →
      ro.y + ro.img.h = (CARD_H : ℤ) - specBottomReserved st - (BACK_GAP : ℤ) + (BACK_GAP : ℤ) ∧
      ro.img = oi := by
    intro ro hro heo
    have hb := render_back_of_tag st ro hro (Or.inr (Or.inr (Or.inr (Or.inl heo))))
    obtain ⟨hio, hyo⟩ := back_orig_char st oi hoi ro hb heo
    refine ⟨?_, hio⟩
    rw [hyo, hio]
    rcases h5 : sysBackFit st with _ | l
    · rw [stackAnchor_none st h5, specBottomReserved_none st h5]
      unfold nfcYpos
      omega
    · rw [stackAnchor_some st l h5, specBottomReserved_some st l h5]
      unfold sysYpos nfcYpos
      omega
  refine ⟨?_, ?_, hTB, ?_⟩
  · obtain ⟨r, hmem, he⟩ := back_text_mem st hsum
    exact ⟨r, liftB hmem, he⟩
  · obtain ⟨r, hmem, he⟩ := back_orig_mem st oi hoi
    exact ⟨r, liftB hmem, he⟩
  · intro rt hrt het ro hro heo
    have h1 := hTB rt hrt het
    obtain ⟨h2, hio⟩ := hORI ro hro heo
    constructor
    · omega
    · have hb := render_back_of_tag st rt hrt (Or.inr (Or.inr (Or.inl het)))
      obtain ⟨_, _, hh, hy⟩ := back_text_char st rt hb het
      have hoile : (oi.h : ℤ) ≤ 320 := by
        have := origBackFit_h_le st oi hoi
        simp only [ORIGINAL_COVER_BACK_MAX] at this
        exact_mod_cast this
      have hro_y : ro.y = (CARD_H : ℤ) - specBottomReserved st - oi.h := by
        have hxi : (ro.img.h : ℤ) = (oi.h : ℤ) := by rw [hio]
        omega
      rw [hy, hro_y]
      unfold specTextBudget at hbud
      omega

/-- A concrete state with a summary and an original cover. -/
def stC10 : St :=
  ⟨⟨none, none, none, none, none, none, none, none, some (Img.mk 100 100), none, strA⟩,
   imgMark, imgMark, NfcColor.white, NfcColor.white, NfcColor.white,
   CropMode.center, 0, font0⟩

/-- C10 witness: the text-over-secondary-cover relation at a concrete
state. -/
theorem C10_text_over_secondary_witness :
    stC10.assets.summary ≠ emptyS ∧
    origBackFit stC10 = some (Img.mk 100 100) ∧
    ((∃ rt ∈ (render stC10).pastes, rt.elem = Elem.textBoxE) ∧
     (∃ ro ∈ (render stC10).pastes, ro.elem = Elem.origCoverE) ∧
     (∀ rt ∈ (render stC10).pastes, rt.elem = Elem.textBoxE →
       rt.y + rt.img.h = (CARD_H : ℤ) - specBottomReserved stC10) ∧
     (∀ rt ∈ (render stC10).pastes, rt.elem = Elem.textBoxE →
       ∀ ro ∈ (render stC10).pastes, ro.elem = Elem.origCoverE →
         rt.y + rt.img.h = ro.y + ro.img.h ∧ rt.y ≤ ro.y)) :=
  ⟨by decide, by decide, C10_text_over_secondary stC10 (by decide) (Img.mk 100 100) (by decide)⟩
